import Mathlib

/-!
Verification of the NeuroPixel core (plugin parameter normalization,
pipeline execution/validation, batch job orchestration, progress
broadcasting) against its natural-language specification.

The definitions below are a shallow embedding of the Python sources:
 - `apps/backend/app/core/plugin_spec.py` (parameter specs, `validate_params`)
 - `apps/backend/app/core/pipeline.py` (`Pipeline.execute`, `Pipeline.validate`)
 - `apps/backend/app/api/batch.py` (`run_batch_job`, `start_batch_run`,
   `broadcast_progress`)

Modelling conventions:
 - images are an abstract type `α`; a plugin is a function that either
   returns a new image or raises (`Except String α`);
 - Python float literals carried by parameter specs are represented as
   rationals (`ℚ`); `validate_params` performs no arithmetic on them, so
   the representation is only an opaque carrier of the declared defaults;
 - wall-clock fields (`total_time_ms`, `elapsed_seconds`, timestamps) are
   omitted: they are real-time measurements outside the functional model;
 - the sequence of `broadcast_progress` calls made by a batch run is
   recorded in a `snapshots` trace field so that claims about published
   progress snapshots can be stated.
-/

/-- Parameter values, as carried by plugin kwargs dictionaries
(`plugin_spec.py`: floats, ints, bools and select strings). -/
inductive PValue where
  | fval (q : ℚ)
  | ival (n : Int)
  | bval (b : Bool)
  | sval (s : String)
deriving DecidableEq, Repr

/-- The declared parameter kinds of `plugin_spec.py`: `FloatParam`,
`IntParam`, `BoolParam`, `SelectParam` (options as value/label pairs) and
`RangeParam` (dual-value range with `default_low`/`default_high`). -/
inductive PluginParam where
  | floatP (name : String) (default min max step : ℚ)
  | intP (name : String) (default min max step : Int)
  | boolP (name : String) (default : Bool)
  | selectP (name : String) (default : String) (options : List (String × String))
  | rangeP (name : String) (default_low default_high min max step : ℚ)
deriving DecidableEq, Repr

/-- The `name` field shared by every parameter kind (`BaseParam.name`). -/
def PluginParam.name : PluginParam → String
  | .floatP n _ _ _ _ => n
  | .intP n _ _ _ _ => n
  | .boolP n _ => n
  | .selectP n _ _ => n
  | .rangeP n _ _ _ _ _ => n

/-- Whether the parameter is the dual-value `range` kind
(`param.type == "range"` in `validate_params`). -/
def PluginParam.isRange : PluginParam → Bool
  | .rangeP _ _ _ _ _ _ => true
  | _ => false

/-- The scalar `param.default` attribute read by `validate_params`' final
branch. That branch is only reached for non-range kinds; for uniformity the
range case returns its `default_low` (never used by `validate_params`). -/
def PluginParam.scalarDefault : PluginParam → PValue
  | .floatP _ d _ _ _ => .fval d
  | .intP _ d _ _ _ => .ival d
  | .boolP _ d => .bval d
  | .selectP _ d _ => .sval d
  | .rangeP _ dl _ _ _ _ => .fval dl

/-- `kwargs[name]` lookup on a Python dict modelled as an ordered
association list: the value of the first (hence only) binding of `k`. -/
def kwargs_get (kwargs : List (String × PValue)) (k : String) : Option PValue :=
  (kwargs.find? (fun kv => kv.1 == k)).map (fun kv => kv.2)

/-- Python dict assignment `d[k] = v` on an ordered association list:
overwrite in place if the key is present, append otherwise. -/
def dict_set (d : List (String × PValue)) (k : String) (v : PValue) : List (String × PValue) :=
  if d.any (fun kv => kv.1 == k) then
    d.map (fun kv => if kv.1 == k then (k, v) else kv)
  else d ++ [(k, v)]

/-- The loop body of `ImagePlugin.validate_params` (`plugin_spec.py` lines
141-151): one declared parameter's contribution to the `validated` dict.
If the name is present in the kwargs the caller value is passed through
verbatim; otherwise a range parameter synthesizes its `_low`/`_high` keys
from the declared defaults, and any other parameter fills its scalar
default. -/
def validate_params_step (kwargs : List (String × PValue))
    (validated : List (String × PValue)) (param : PluginParam) : List (String × PValue) :=
  match kwargs_get kwargs param.name with
  | some v => dict_set validated param.name v
  | none =>
    match param with
    | .rangeP name dl dh _ _ _ =>
      dict_set (dict_set validated (name ++ "_low") (.fval dl)) (name ++ "_high") (.fval dh)
    | p => dict_set validated p.name p.scalarDefault

/-- `ImagePlugin.validate_params` (`plugin_spec.py` lines 134-153): fold
the loop body over the declared parameters, starting from an empty
`validated` dict. -/
def ImagePlugin.validate_params (spec_params : List PluginParam)
    (kwargs : List (String × PValue)) : List (String × PValue) :=
  spec_params.foldl (validate_params_step kwargs) []

/-- The output keys one declared parameter contributes to
`validate_params` for the given kwargs. -/
def paramKeys (kwargs : List (String × PValue)) (p : PluginParam) : List String :=
  match kwargs_get kwargs p.name with
  | some _ => [p.name]
  | none =>
    match p with
    | .rangeP name _ _ _ _ _ => [name ++ "_low", name ++ "_high"]
    | q => [q.name]

/-- The output entries one declared parameter contributes to
`validate_params` for the given kwargs. -/
def paramEntries (kwargs : List (String × PValue)) (p : PluginParam) : List (String × PValue) :=
  match kwargs_get kwargs p.name with
  | some v => [(p.name, v)]
  | none =>
    match p with
    | .rangeP name dl dh _ _ _ => [(name ++ "_low", PValue.fval dl), (name ++ "_high", PValue.fval dh)]
    | q => [(q.name, q.scalarDefault)]

/-- One step of a processing pipeline (`pipeline.py`: `PipelineStep`). -/
structure PipelineStep where
  plugin_name : String
  params : List (String × PValue) := []
  active : Bool := true
deriving DecidableEq, Repr

/-- Result of a pipeline execution (`pipeline.py`:
`PipelineExecutionResult`); the wall-clock `total_time_ms` field is
outside the functional model and omitted. -/
structure PipelineExecutionResult where
  success : Bool
  steps_executed : Nat
  errors : List String
deriving DecidableEq, Repr

/-- A loaded plugin: `run(image, **params)` either returns a new image or
raises (`Except.error` carries `str(e)`). -/
abbrev Plugin (α : Type) := List (String × PValue) → α → Except String α

/-- The plugin manager registry: name to loaded plugin, `none` when absent
(`PluginManager._plugins.get`). -/
abbrev PluginRegistry (α : Type) := String → Option (Plugin α)

/-- `PluginManager.execute` (`manager.py` lines 109-138): raises
`ValueError` when the plugin is unknown, otherwise runs it (the measured
execution time is outside the functional model). -/
def PluginManager.execute {α : Type} (reg : PluginRegistry α) (plugin_name : String)
    (image : α) (params : List (String × PValue)) : Except String α :=
  match reg plugin_name with
  | none => Except.error ("Plugin not found: " ++ plugin_name)
  | some plugin => plugin params image

/-- The error string recorded by `Pipeline.execute` on a step failure:
Python `f"Step {i} ({step.plugin_name}): {str(e)}"`. -/
def stepErrorMsg (i : Nat) (plugin_name : String) (e : String) : String :=
  "Step " ++ toString i ++ " (" ++ plugin_name ++ "): " ++ e

/-- A pipeline: an ordered list of steps (`pipeline.py`: `Pipeline`). -/
structure Pipeline where
  steps : List PipelineStep
deriving DecidableEq, Repr

/-- The loop body of `Pipeline.execute` (`pipeline.py` lines 73-91):
`i` is the `enumerate` index, the accumulators are the working image, the
error list and the `steps_executed` counter. Inactive steps are skipped;
a successful step replaces the working image and increments the counter;
a failing step appends an error and leaves the image and the counter as
they were. -/
def Pipeline.executeGo {α : Type} (reg : PluginRegistry α) :
    Nat → α → List String → Nat → List PipelineStep → α × List String × Nat
  | _, img, errs, n, [] => (img, errs, n)
  | i, img, errs, n, step :: rest =>
    if !step.active then Pipeline.executeGo reg (i + 1) img errs n rest
    else
      match PluginManager.execute reg step.plugin_name img step.params with
      | Except.ok result_image => Pipeline.executeGo reg (i + 1) result_image errs (n + 1) rest
      | Except.error e =>
        Pipeline.executeGo reg (i + 1) img (errs ++ [stepErrorMsg i step.plugin_name e]) n rest

/-- `Pipeline.execute` (`pipeline.py` lines 51-98). The Python entry
`image.copy()` is the identity in the pure model. -/
def Pipeline.execute {α : Type} (reg : PluginRegistry α) (p : Pipeline) (image : α) :
    α × PipelineExecutionResult :=
  match Pipeline.executeGo reg 0 image [] 0 p.steps with
  | (img, errs, n) =>
    (img, { success := errs.length == 0, steps_executed := n, errors := errs })

/-- The error string recorded by `Pipeline.validate` for an unresolvable
step: Python `f"Step {i}: Plugin '{step.plugin_name}' not found"`. -/
def validateErrorMsg (i : Nat) (plugin_name : String) : String :=
  "Step " ++ toString i ++ ": Plugin '" ++ plugin_name ++ "' not found"

/-- The loop of `Pipeline.validate` (`pipeline.py` lines 107-111): walk all
steps with their `enumerate` index, collecting an error for each step whose
plugin name does not resolve. -/
def Pipeline.validateGo {α : Type} (reg : PluginRegistry α) :
    Nat → List PipelineStep → List String
  | _, [] => []
  | i, step :: rest =>
    (if (reg step.plugin_name).isNone then [validateErrorMsg i step.plugin_name] else [])
      ++ Pipeline.validateGo reg (i + 1) rest

/-- `Pipeline.validate` (`pipeline.py` lines 100-113). -/
def Pipeline.validate {α : Type} (reg : PluginRegistry α) (p : Pipeline) :
    Bool × List String :=
  let errors := Pipeline.validateGo reg 0 p.steps
  (errors.length == 0, errors)

/-- A list with `enumerate` indices starting at `i` (used only to state
theorems about the index-tagged error collections). -/
def indexedFrom {β : Type} (i : Nat) : List β → List (Nat × β)
  | [] => []
  | x :: xs => (i, x) :: indexedFrom (i + 1) xs

/-- Job status values (`batch.py`: the `status` literal of `BatchJob`). -/
inductive BatchStatus where
  | pending
  | processing
  | completed
  | failed
  | cancelled
deriving DecidableEq, Repr

/-- One input of a batch job, with the filename used in error messages and
the outcome of resolving it to an image (`batch.py` lines 159-178: a cache
or filesystem load that either yields an image or raises). -/
structure BatchItem (α : Type) where
  filename : String
  load : Except String α
deriving Repr

/-- Whether an input's load succeeds. -/
def BatchItem.loadOk {α : Type} (item : BatchItem α) : Bool :=
  match item.load with
  | Except.ok _ => true
  | Except.error _ => false

/-- The error string recorded for a failed input: Python
`f"Error processing {filename}: {str(e)}"`. -/
def inputErrorMsg (filename e : String) : String :=
  "Error processing " ++ filename ++ ": " ++ e

/-- The errors one input contributes to `job.errors`: the single input
error on a load failure, or the pipeline execution errors on success
(`batch.py` lines 183-184 and 206-209). -/
def itemErrors {α : Type} (reg : PluginRegistry α) (pipeline : Pipeline)
    (item : BatchItem α) : List String :=
  match item.load with
  | Except.error e => [inputErrorMsg item.filename e]
  | Except.ok img => (Pipeline.execute reg pipeline img).2.errors

/-- The mutable state of a `BatchJob` during its run (`batch.py` lines
61-114), plus a `snapshots` trace: one `(status, current)` entry per
`broadcast_progress` call made on the job's behalf, in publication order.
Wall-clock fields are outside the model. -/
structure BatchJobState where
  status : BatchStatus
  current : Nat
  total : Nat
  processed : Nat
  failed : Nat
  errors : List String
  snapshots : List (BatchStatus × Nat)
deriving DecidableEq, Repr

/-- How the run loop observes the externally set cancellation flag: the
flag was set after input `j` (0-indexed) was handled, so the check made
before starting input `i` reads true exactly when `j < i`. `none` means
cancellation is never requested. -/
def cancelObserved (cancelAfter : Option Nat) (i : Nat) : Bool :=
  match cancelAfter with
  | none => false
  | some j => decide (j < i)

/-- The per-input loop of `run_batch_job` (`batch.py` lines 149-215).
At each iteration boundary the cancellation flag is checked; if set the
status becomes `cancelled` and the loop breaks (no per-input snapshot).
Otherwise `current` is advanced, the input is loaded and run through the
pipeline (a load failure increments `failed` and appends one error; a
success appends the pipeline's errors, saves the output and increments
`processed`), and a progress snapshot is broadcast. -/
def runBatchLoop {α : Type} (reg : PluginRegistry α) (pipeline : Pipeline)
    (cancelAfter : Option Nat) :
    Nat → List (BatchItem α) → BatchJobState → BatchJobState
  | _, [], st => st
  | i, item :: rest, st =>
    if cancelObserved cancelAfter i then
      { st with status := BatchStatus.cancelled }
    else
      let st1 := { st with current := i + 1 }
      let st2 :=
        match item.load with
        | Except.error e =>
          { st1 with
            errors := st1.errors ++ [inputErrorMsg item.filename e],
            failed := st1.failed + 1 }
        | Except.ok img =>
          let exec_result := (Pipeline.execute reg pipeline img).2
          { st1 with
            errors := st1.errors ++ exec_result.errors,
            processed := st1.processed + 1 }
      let st3 := { st2 with snapshots := st2.snapshots ++ [(st2.status, st2.current)] }
      runBatchLoop reg pipeline cancelAfter (i + 1) rest st3

/-- The finalize expression of `run_batch_job` (`batch.py` line 219):
`"completed" if job.failed == 0 else "failed" if job.processed == 0 else
"completed"`. It is applied unconditionally on loop exit, including after
a cancellation break. -/
def finalStatus (processed failed : Nat) : BatchStatus :=
  if failed == 0 then BatchStatus.completed
  else if processed == 0 then BatchStatus.failed
  else BatchStatus.completed

/-- `run_batch_job` (`batch.py` lines 133-221): set `processing`, broadcast
an initial snapshot, run the per-input loop, then unconditionally assign
the final status from the counters and broadcast a terminal snapshot. -/
def run_batch_job {α : Type} (reg : PluginRegistry α) (pipeline : Pipeline)
    (cancelAfter : Option Nat) (items : List (BatchItem α)) : BatchJobState :=
  let st0 : BatchJobState :=
    { status := BatchStatus.processing, current := 0, total := items.length,
      processed := 0, failed := 0, errors := [],
      snapshots := [(BatchStatus.processing, 0)] }
  let st := runBatchLoop reg pipeline cancelAfter 0 items st0
  let fs := finalStatus st.processed st.failed
  { st with status := fs, snapshots := st.snapshots ++ [(fs, st.current)] }

/-- A `BatchRunRequest` (`batch.py` lines 30-35). -/
structure BatchRunRequest where
  source_image_ids : List String
  pipeline_steps : List PipelineStep
  output_folder : String
  input_folder : Option String
deriving DecidableEq, Repr

/-- A stored batch job record as created by `start_batch_run`
(`batch.py` lines 263-275): the fields fixed at creation time. -/
structure StoredBatchJob where
  job_id : String
  source_image_ids : List String
  source_paths : List String
  pipeline_steps : List PipelineStep
  output_folder : String
deriving DecidableEq, Repr

/-- `start_batch_run` (`batch.py` lines 224-280). The filesystem is
abstracted by `folderScan` (folder path to the list of compatible image
files, `none` when the folder does not exist) and the upload cache by the
list of cached image ids; `fresh_job_id` stands for the generated UUID.
An `HTTPException` is `Except.error` with its detail string; on success
the new job table, the new background-task list and the returned job id
are produced. Pipeline validation happens first: an invalid pipeline is
rejected before any filesystem access, job creation or task scheduling. -/
def start_batch_run {α : Type} (reg : PluginRegistry α)
    (folderScan : String → Option (List String)) (image_cache : List String)
    (request : BatchRunRequest) (fresh_job_id : String)
    (batch_jobs : List (String × StoredBatchJob)) (tasks : List String) :
    Except String (List (String × StoredBatchJob) × List String × String) :=
  let pipeline : Pipeline := { steps := request.pipeline_steps }
  match Pipeline.validate reg pipeline with
  | (is_valid, errors) =>
    if !is_valid then
      Except.error ("Invalid pipeline: " ++ String.intercalate ", " errors)
    else
      let sourcePathsE : Except String (List String) :=
        match request.input_folder with
        | some folder =>
          match folderScan folder with
          | none => Except.error ("Input folder not found: " ++ folder)
          | some paths =>
            if paths.isEmpty then
              Except.error ("No compatible images found in " ++ folder)
            else Except.ok paths
        | none =>
          if !request.source_image_ids.isEmpty then
            let missing := request.source_image_ids.filter
              (fun id => !(image_cache.contains id))
            if !missing.isEmpty then
              Except.error ("Images not found: " ++ String.intercalate ", " missing)
            else Except.ok []
          else
            Except.error "Must provide either input_folder or source_image_ids"
      match sourcePathsE with
      | Except.error e => Except.error e
      | Except.ok source_paths =>
        let job : StoredBatchJob :=
          { job_id := fresh_job_id,
            source_image_ids := request.source_image_ids,
            source_paths := source_paths,
            pipeline_steps := request.pipeline_steps,
            output_folder := request.output_folder }
        Except.ok (batch_jobs ++ [(fresh_job_id, job)], tasks ++ [fresh_job_id], fresh_job_id)

/-- `broadcast_progress` (`batch.py` lines 117-130) over an abstract
observer type: `send ws` tells whether delivering the snapshot to observer
`ws` succeeds (a raising `ws.send_json` is `false`). The first pass
attempts delivery to every registered observer, collecting the failing
ones; the second pass removes each failing observer from the registry
(Python `list.remove` guarded by a membership test). Returns the new
registry and the disconnected observers; no failure propagates to the
caller. -/
def broadcast_progress {Obs : Type} [DecidableEq Obs] (send : Obs → Bool)
    (websocket_connections : List Obs) : List Obs × List Obs :=
  let disconnected := websocket_connections.foldl
    (fun acc ws => if send ws then acc else acc ++ [ws]) []
  let remaining := disconnected.foldl
    (fun conns ws => if ws ∈ conns then conns.erase ws else conns)
    websocket_connections
  (remaining, disconnected)

/-! ### Helper lemmas about `Pipeline.executeGo` -/

/-- Running the execute loop with arbitrary accumulators equals running it
with empty accumulators and shifting the results. -/
theorem executeGo_shift {α : Type} (reg : PluginRegistry α) :
    ∀ (steps : List PipelineStep) (i : Nat) (img : α) (errs : List String) (n : Nat)
      (img2 : α) (E : List String) (k : Nat),
    Pipeline.executeGo reg i img [] 0 steps = (img2, E, k) →
    Pipeline.executeGo reg i img errs n steps = (img2, errs ++ E, n + k) := by
  intro steps
  induction steps with
  | nil =>
    intro i img errs n img2 E k h
    simp only [Pipeline.executeGo, Prod.mk.injEq] at h
    obtain ⟨rfl, rfl, rfl⟩ := h
    simp [Pipeline.executeGo]
  | cons step rest ih =>
    intro i img errs n img2 E k h
    by_cases hs : step.active
    · simp only [Pipeline.executeGo, hs, Bool.not_true, Bool.false_eq_true, if_false] at h ⊢
      cases hx : PluginManager.execute reg step.plugin_name img step.params with
      | ok res =>
        rw [hx] at h
        dsimp only at h ⊢
        rcases hbase : Pipeline.executeGo reg (i + 1) res [] 0 rest with ⟨a, b, c⟩
        have h1 := ih (i + 1) res [] 1 a b c hbase
        rw [show (0 + 1 : Nat) = 1 from rfl, h1] at h
        simp only [List.nil_append, Prod.mk.injEq] at h
        obtain ⟨rfl, rfl, rfl⟩ := h
        rw [ih (i + 1) res errs (n + 1) a b c hbase]
        simp only [Prod.mk.injEq, true_and]
        omega
      | error e =>
        rw [hx] at h
        dsimp only at h ⊢
        rcases hbase : Pipeline.executeGo reg (i + 1) img [] 0 rest with ⟨a, b, c⟩
        have h1 := ih (i + 1) img ([] ++ [stepErrorMsg i step.plugin_name e]) 0 a b c hbase
        rw [h1] at h
        simp only [List.nil_append, Prod.mk.injEq] at h
        obtain ⟨rfl, rfl, rfl⟩ := h
        rw [ih (i + 1) img (errs ++ [stepErrorMsg i step.plugin_name e]) n a b c hbase]
        simp [List.append_assoc]
    · simp only [Pipeline.executeGo, hs, Bool.not_false, if_true] at h ⊢
      exact ih (i + 1) img errs n img2 E k h

/-- The execute loop distributes over list append: the second half starts
from the first half's accumulators, with the `enumerate` index advanced by
the first half's full length. -/
theorem executeGo_append {α : Type} (reg : PluginRegistry α) :
    ∀ (xs ys : List PipelineStep) (i : Nat) (img : α) (errs : List String) (n : Nat)
      (img2 : α) (E : List String) (k : Nat),
    Pipeline.executeGo reg i img errs n xs = (img2, E, k) →
    Pipeline.executeGo reg i img errs n (xs ++ ys) =
      Pipeline.executeGo reg (i + xs.length) img2 E k ys := by
  intro xs
  induction xs with
  | nil =>
    intro ys i img errs n img2 E k h
    simp only [Pipeline.executeGo, Prod.mk.injEq] at h
    obtain ⟨rfl, rfl, rfl⟩ := h
    simp
  | cons step rest ih =>
    intro ys i img errs n img2 E k h
    rw [List.cons_append]
    by_cases hs : step.active
    · simp only [Pipeline.executeGo, hs, Bool.not_true, Bool.false_eq_true, if_false] at h ⊢
      cases hx : PluginManager.execute reg step.plugin_name img step.params with
      | ok res =>
        rw [hx] at h
        dsimp only at h ⊢
        rw [ih ys (i + 1) res errs (n + 1) img2 E k h]
        simp only [List.length_cons]
        congr 1
        omega
      | error e =>
        rw [hx] at h
        dsimp only at h ⊢
        rw [ih ys (i + 1) img (errs ++ [stepErrorMsg i step.plugin_name e]) n img2 E k h]
        simp only [List.length_cons]
        congr 1
        omega
    · simp only [Pipeline.executeGo, hs, Bool.not_false, if_true] at h ⊢
      rw [ih ys (i + 1) img errs n img2 E k h]
      simp only [List.length_cons]
      congr 1
      omega

/-- Every active step ends up counted exactly once: either in the
`steps_executed` counter (success) or as one error (failure). -/
theorem executeGo_counts {α : Type} (reg : PluginRegistry α) :
    ∀ (steps : List PipelineStep) (i : Nat) (img : α) (errs : List String) (n : Nat),
    (Pipeline.executeGo reg i img errs n steps).2.2 +
      (Pipeline.executeGo reg i img errs n steps).2.1.length =
      n + errs.length + (steps.filter (fun s => s.active)).length := by
  intro steps
  induction steps with
  | nil => intro i img errs n; simp [Pipeline.executeGo]
  | cons step rest ih =>
    intro i img errs n
    by_cases hs : step.active
    · rw [List.filter_cons_of_pos (by simp [hs])]
      simp only [Pipeline.executeGo, hs, Bool.not_true, Bool.false_eq_true, if_false,
        List.length_cons]
      cases hx : PluginManager.execute reg step.plugin_name img step.params with
      | ok res =>
        dsimp only
        have := ih (i + 1) res errs (n + 1)
        omega
      | error e =>
        dsimp only
        have := ih (i + 1) img (errs ++ [stepErrorMsg i step.plugin_name e]) n
        simp only [List.length_append, List.length_singleton] at this
        omega
    · rw [List.filter_cons_of_neg (by simp [hs])]
      simp only [Pipeline.executeGo, hs, Bool.not_false, if_true]
      exact ih (i + 1) img errs n

/-- A run over steps that are all inactive changes nothing. -/
theorem executeGo_all_inactive {α : Type} (reg : PluginRegistry α) :
    ∀ (steps : List PipelineStep) (i : Nat) (img : α) (errs : List String) (n : Nat),
    (∀ s ∈ steps, s.active = false) →
    Pipeline.executeGo reg i img errs n steps = (img, errs, n) := by
  intro steps
  induction steps with
  | nil => intro i img errs n _; simp [Pipeline.executeGo]
  | cons step rest ih =>
    intro i img errs n h
    have hs : step.active = false := h step (by simp)
    simp only [Pipeline.executeGo, hs, Bool.not_false, if_true]
    exact ih (i + 1) img errs n (fun s hm => h s (by simp [hm]))

/-! ### Helper lemmas about `Pipeline.validateGo` -/

/-- The validation loop output in closed form: one indexed error message
per step whose plugin name does not resolve, over all steps. -/
theorem validateGo_eq_indexed {α : Type} (reg : PluginRegistry α) :
    ∀ (steps : List PipelineStep) (i : Nat),
    Pipeline.validateGo reg i steps =
      ((indexedFrom i steps).filter (fun is => (reg is.2.plugin_name).isNone)).map
        (fun is => validateErrorMsg is.1 is.2.plugin_name) := by
  intro steps
  induction steps with
  | nil => intro i; simp [Pipeline.validateGo, indexedFrom]
  | cons step rest ih =>
    intro i
    simp only [Pipeline.validateGo, indexedFrom]
    by_cases hn : (reg step.plugin_name).isNone
    · rw [List.filter_cons_of_pos (by simpa using hn)]
      simp [hn, ih (i + 1)]
    · rw [List.filter_cons_of_neg (by simpa using hn)]
      simp [hn, ih (i + 1)]

/-- Validation reads nothing but the plugin names: two pipelines whose
steps carry the same names in the same order (whatever their `active`
flags and params) validate identically. -/
theorem validateGo_names_only {α : Type} (reg : PluginRegistry α) :
    ∀ (steps1 steps2 : List PipelineStep) (i : Nat),
    steps1.map (fun s => s.plugin_name) = steps2.map (fun s => s.plugin_name) →
    Pipeline.validateGo reg i steps1 = Pipeline.validateGo reg i steps2 := by
  intro steps1
  induction steps1 with
  | nil =>
    intro steps2 i h
    cases steps2 with
    | nil => rfl
    | cons b bs => simp at h
  | cons a as ih =>
    intro steps2 i h
    cases steps2 with
    | nil => simp at h
    | cons b bs =>
      simp only [List.map_cons, List.cons.injEq] at h
      simp only [Pipeline.validateGo, h.1]
      rw [ih bs (i + 1) h.2]

/-- A pipeline containing a step with an unresolvable plugin name
validates with a nonempty error list. -/
theorem validateGo_ne_nil_of_unresolved {α : Type} (reg : PluginRegistry α) :
    ∀ (steps : List PipelineStep) (i : Nat),
    (∃ s ∈ steps, reg s.plugin_name = none) →
    Pipeline.validateGo reg i steps ≠ [] := by
  intro steps
  induction steps with
  | nil =>
    intro i h
    obtain ⟨s, hm, _⟩ := h
    simp at hm
  | cons step rest ih =>
    intro i h
    obtain ⟨s, hm, hnone⟩ := h
    rcases List.mem_cons.mp hm with rfl | hm2
    · simp [Pipeline.validateGo, hnone]
    · simp only [Pipeline.validateGo]
      intro hcontra
      rcases List.append_eq_nil.mp hcontra with ⟨_, h2⟩
      exact ih (i + 1) ⟨s, hm2, hnone⟩ h2

/-! ### Concrete fixtures used by witnesses and counterexamples -/

/-- A plugin that succeeds, bumping a `Nat` image. -/
def okPlugin : Plugin Nat := fun _ img => Except.ok (img + 1)

/-- A plugin whose `run` raises. -/
def boomPlugin : Plugin Nat := fun _ _ => Except.error "kaput"

/-- A concrete registry with one succeeding and one raising plugin. -/
def regFix : PluginRegistry Nat := fun n =>
  match n with
  | "ok" => some okPlugin
  | "boom" => some boomPlugin
  | _ => none

/-- A pipeline whose single enabled step raises. -/
def boomOnlyPipeline : Pipeline := { steps := [{ plugin_name := "boom" }] }

/-! ### Claim theorems: pipeline execution and validation -/

/-- C2 (amended): for every registry, pipeline and image, `execute`
returns a result in which every enabled (attempted) step is accounted
exactly once, either in `steps_executed` (it completed) or as one entry of
the error list (it raised) — so `steps_executed + len(errors)` equals the
count of enabled steps, and `steps_executed` counts only the enabled steps
that did not raise; `success` is true exactly when the error list is
empty. -/
theorem execute_steps_executed_plus_errors {α : Type} (reg : PluginRegistry α)
    (p : Pipeline) (image : α) :
    (Pipeline.execute reg p image).2.steps_executed +
        (Pipeline.execute reg p image).2.errors.length =
      (p.steps.filter (fun s => s.active)).length ∧
    ((Pipeline.execute reg p image).2.success = true ↔
      (Pipeline.execute reg p image).2.errors = []) := by
  unfold Pipeline.execute
  rcases hgo : Pipeline.executeGo reg 0 image [] 0 p.steps with ⟨img2, E, k⟩
  have hc := executeGo_counts reg p.steps 0 image [] 0
  rw [hgo] at hc
  simp only [List.length_nil, Nat.add_zero, Nat.zero_add] at hc
  dsimp only
  constructor
  · exact hc
  · simp [List.length_eq_zero]

/-- C2 counterexample: a pipeline whose single enabled step is attempted
and raises reports `steps_executed = 0`, not the attempted count 1. -/
theorem steps_executed_not_attempt_count :
    (boomOnlyPipeline.steps.filter (fun s => s.active)).length = 1 ∧
    (Pipeline.execute regFix boomOnlyPipeline 0).2.steps_executed = 0 ∧
    ¬((Pipeline.execute regFix boomOnlyPipeline 0).2.steps_executed =
        (boomOnlyPipeline.steps.filter (fun s => s.active)).length) := by
  decide

/-- C8: a pipeline with zero enabled steps (all steps inactive, including
the empty pipeline) returns the input image unchanged with `success`,
zero `steps_executed` and no errors. -/
theorem execute_no_enabled_steps_identity {α : Type} (reg : PluginRegistry α)
    (p : Pipeline) (image : α) (h : ∀ s ∈ p.steps, s.active = false) :
    Pipeline.execute reg p image =
      (image, { success := true, steps_executed := 0, errors := [] }) := by
  unfold Pipeline.execute
  rw [executeGo_all_inactive reg p.steps 0 image [] 0 h]
  rfl

/-- C8 witness: a concrete two-step pipeline with both steps disabled. -/
theorem execute_no_enabled_steps_identity_witness :
    Pipeline.execute regFix
        { steps := [{ plugin_name := "ok", active := false },
                    { plugin_name := "boom", active := false }] } 5 =
      (5, { success := true, steps_executed := 0, errors := [] }) :=
  execute_no_enabled_steps_identity regFix _ 5 (by decide)

/-- C4: when an enabled step raises, the error recorded names the step's
`enumerate` index and plugin name, the failed step's output is discarded
(the next step consumes the pre-failure image `c`), and all remaining
steps still run: the final image and the tail errors come from running the
post-failure steps from `c`, and `steps_executed` collects the successful
steps on both sides of the failure. -/
theorem step_failure_records_error_and_continues {α : Type} (reg : PluginRegistry α)
    (pre : List PipelineStep) (s : PipelineStep) (post : List PipelineStep) (image : α)
    (c : α) (Epre : List String) (npre : Nat) (e : String)
    (d : α) (Epost : List String) (k : Nat)
    (hact : s.active = true)
    (hpre : Pipeline.executeGo reg 0 image [] 0 pre = (c, Epre, npre))
    (herr : PluginManager.execute reg s.plugin_name c s.params = Except.error e)
    (hpost : Pipeline.executeGo reg (pre.length + 1) c [] 0 post = (d, Epost, k)) :
    Pipeline.execute reg { steps := pre ++ s :: post } image =
      (d, { success := false,
            steps_executed := npre + k,
            errors := Epre ++ stepErrorMsg pre.length s.plugin_name e :: Epost }) := by
  unfold Pipeline.execute
  rw [executeGo_append reg pre (s :: post) 0 image [] 0 c Epre npre hpre]
  rw [show (0 + pre.length) = pre.length from by omega]
  simp only [Pipeline.executeGo, hact, Bool.not_true, Bool.false_eq_true, if_false]
  rw [herr]
  dsimp only
  rw [executeGo_shift reg post (pre.length + 1) c
    (Epre ++ [stepErrorMsg pre.length s.plugin_name e]) npre d Epost k hpost]
  dsimp only
  have hlen : ((Epre ++ [stepErrorMsg pre.length s.plugin_name e] ++ Epost).length == 0) = false := by
    simp
  simp [List.append_assoc]

/-- C4 witness: a successful step, then a raising step, then another
successful step; the raising step's error is recorded at index 1 and the
final step still runs on the pre-failure image. -/
theorem step_failure_records_error_and_continues_witness :
    Pipeline.execute regFix
        { steps := [{ plugin_name := "ok" }, { plugin_name := "boom" },
                    { plugin_name := "ok" }] } 0 =
      (2, { success := false,
            steps_executed := 1 + 1,
            errors := [] ++ stepErrorMsg 1 "boom" "kaput" :: [] }) :=
  step_failure_records_error_and_continues regFix
    [{ plugin_name := "ok" }] { plugin_name := "boom" } [{ plugin_name := "ok" }] 0
    1 [] 1 "kaput" 2 [] 1 (by decide) (by decide) rfl (by decide)

/-- C7: pipeline validation inspects every step regardless of its
`active` flag (it depends only on the ordered plugin names), collects one
error naming the step index for each unresolvable name without
short-circuiting, and its ok flag is true exactly when the error list is
empty. -/
theorem validate_checks_all_steps {α : Type} (reg : PluginRegistry α) (p : Pipeline) :
    (∀ q : Pipeline,
      p.steps.map (fun s => s.plugin_name) = q.steps.map (fun s => s.plugin_name) →
      Pipeline.validate reg p = Pipeline.validate reg q) ∧
    (Pipeline.validate reg p).2 =
      ((indexedFrom 0 p.steps).filter (fun is => (reg is.2.plugin_name).isNone)).map
        (fun is => validateErrorMsg is.1 is.2.plugin_name) ∧
    ((Pipeline.validate reg p).1 = true ↔ (Pipeline.validate reg p).2 = []) := by
  refine ⟨?_, ?_, ?_⟩
  · intro q hq
    unfold Pipeline.validate
    rw [validateGo_names_only reg p.steps q.steps 0 hq]
  · exact validateGo_eq_indexed reg p.steps 0
  · unfold Pipeline.validate
    simp [List.length_eq_zero]

/-- C7 witness: validation of a pipeline whose second, disabled step is
unresolvable still reports that step; toggling the active flags does not
change the result. -/
theorem validate_checks_all_steps_witness :
    Pipeline.validate regFix
        { steps := [{ plugin_name := "ok" },
                    { plugin_name := "nope", active := false }] } =
      Pipeline.validate regFix
        { steps := [{ plugin_name := "ok", active := false },
                    { plugin_name := "nope" }] } ∧
    (Pipeline.validate regFix
        { steps := [{ plugin_name := "ok" },
                    { plugin_name := "nope", active := false }] }).2 =
      ["Step 1: Plugin 'nope' not found"] ∧
    (Pipeline.validate regFix
        { steps := [{ plugin_name := "ok" },
                    { plugin_name := "nope", active := false }] }).1 = false := by
  have h := validate_checks_all_steps regFix
    { steps := [{ plugin_name := "ok" }, { plugin_name := "nope", active := false }] }
  exact ⟨h.1 _ (by decide), by decide, by decide⟩

/-! ### Helper lemmas about `validate_params` -/

/-- The keys contributed by a whole descriptor's parameter list. -/
def declaredKeys (kwargs : List (String × PValue)) : List PluginParam → List String
  | [] => []
  | p :: ps => paramKeys kwargs p ++ declaredKeys kwargs ps

/-- The entries contributed by a whole descriptor's parameter list. -/
def declaredEntries (kwargs : List (String × PValue)) :
    List PluginParam → List (String × PValue)
  | [] => []
  | p :: ps => paramEntries kwargs p ++ declaredEntries kwargs ps

/-- Assigning a key absent from the dict appends the binding. -/
theorem dict_set_fresh (d : List (String × PValue)) (k : String) (v : PValue)
    (h : ∀ kv ∈ d, kv.1 ≠ k) : dict_set d k v = d ++ [(k, v)] := by
  have hc : d.any (fun kv => kv.1 == k) = false := by
    rw [List.any_eq_false]
    intro kv hm
    simp [h kv hm]
  simp [dict_set, hc]

/-- A parameter's contributed entries carry exactly its contributed keys. -/
theorem paramEntries_fst (kwargs : List (String × PValue)) (p : PluginParam) :
    (paramEntries kwargs p).map Prod.fst = paramKeys kwargs p := by
  cases hk : kwargs_get kwargs p.name with
  | some v => simp [paramEntries, paramKeys, hk]
  | none => cases p <;> simp_all [paramEntries, paramKeys, PluginParam.name]

/-- Every key a parameter contributes is its name or a `_low`/`_high`
suffixed form of it. -/
theorem paramKeys_shape (kwargs : List (String × PValue)) (p : PluginParam) :
    ∀ k ∈ paramKeys kwargs p,
      k = p.name ∨ k = p.name ++ "_low" ∨ k = p.name ++ "_high" := by
  intro k hk
  cases hg : kwargs_get kwargs p.name with
  | some v => simp [paramKeys, hg] at hk; simp [hk]
  | none =>
    cases p <;> simp_all [paramKeys, PluginParam.name]

/-- When a parameter's contributed keys are fresh for the accumulated dict
and mutually distinct, the loop body appends exactly its entries. -/
theorem validate_params_step_fresh (kwargs : List (String × PValue))
    (acc : List (String × PValue)) (p : PluginParam)
    (hfresh : ∀ k ∈ paramKeys kwargs p, ∀ kv ∈ acc, kv.1 ≠ k)
    (hnd : (paramKeys kwargs p).Nodup) :
    validate_params_step kwargs acc p = acc ++ paramEntries kwargs p := by
  cases hk : kwargs_get kwargs p.name with
  | some v =>
    have h1 : ∀ kv ∈ acc, kv.1 ≠ p.name := fun kv hm =>
      hfresh p.name (by simp [paramKeys, hk]) kv hm
    simp only [validate_params_step, hk]
    rw [dict_set_fresh acc p.name v h1]
    simp [paramEntries, hk]
  | none =>
    cases p with
    | rangeP name dl dh mn mx st =>
      simp only [PluginParam.name] at hk
      have hlo : ∀ kv ∈ acc, kv.1 ≠ name ++ "_low" := fun kv hm =>
        hfresh (name ++ "_low") (by simp [paramKeys, PluginParam.name, hk]) kv hm
      have hib : (name ++ "_low") ≠ (name ++ "_high") := by
        have := hnd
        simp [paramKeys, PluginParam.name, hk] at this
        exact this
      have hhi : ∀ kv ∈ acc ++ [(name ++ "_low", PValue.fval dl)], kv.1 ≠ name ++ "_high" := by
        intro kv hm
        rcases List.mem_append.mp hm with hma | hmb
        · exact hfresh (name ++ "_high") (by simp [paramKeys, PluginParam.name, hk]) kv hma
        · simp only [List.mem_singleton] at hmb
          rw [hmb]
          exact hib
      simp only [validate_params_step, PluginParam.name, hk]
      rw [dict_set_fresh acc _ _ hlo, dict_set_fresh _ _ _ hhi]
      simp [paramEntries, PluginParam.name, hk]
    | floatP name d mn mx st =>
      simp only [PluginParam.name] at hk
      have h1 : ∀ kv ∈ acc, kv.1 ≠ name := fun kv hm =>
        hfresh name (by simp [paramKeys, PluginParam.name, hk]) kv hm
      simp only [validate_params_step, PluginParam.name, hk]
      rw [dict_set_fresh acc _ _ h1]
      simp [paramEntries, PluginParam.name, PluginParam.scalarDefault, hk]
    | intP name d mn mx st =>
      simp only [PluginParam.name] at hk
      have h1 : ∀ kv ∈ acc, kv.1 ≠ name := fun kv hm =>
        hfresh name (by simp [paramKeys, PluginParam.name, hk]) kv hm
      simp only [validate_params_step, PluginParam.name, hk]
      rw [dict_set_fresh acc _ _ h1]
      simp [paramEntries, PluginParam.name, PluginParam.scalarDefault, hk]
    | boolP name d =>
      simp only [PluginParam.name] at hk
      have h1 : ∀ kv ∈ acc, kv.1 ≠ name := fun kv hm =>
        hfresh name (by simp [paramKeys, PluginParam.name, hk]) kv hm
      simp only [validate_params_step, PluginParam.name, hk]
      rw [dict_set_fresh acc _ _ h1]
      simp [paramEntries, PluginParam.name, PluginParam.scalarDefault, hk]
    | selectP name d opts =>
      simp only [PluginParam.name] at hk
      have h1 : ∀ kv ∈ acc, kv.1 ≠ name := fun kv hm =>
        hfresh name (by simp [paramKeys, PluginParam.name, hk]) kv hm
      simp only [validate_params_step, PluginParam.name, hk]
      rw [dict_set_fresh acc _ _ h1]
      simp [paramEntries, PluginParam.name, PluginParam.scalarDefault, hk]

/-- When all contributed keys are mutually distinct and fresh for the
accumulator, the `validate_params` fold appends each parameter's entries
in declaration order. -/
theorem validate_params_eq_entries (kwargs : List (String × PValue)) :
    ∀ (ps : List PluginParam) (acc : List (String × PValue)),
    (acc.map Prod.fst ++ declaredKeys kwargs ps).Nodup →
    List.foldl (validate_params_step kwargs) acc ps = acc ++ declaredEntries kwargs ps := by
  intro ps
  induction ps with
  | nil => intro acc h; simp [declaredEntries]
  | cons p ps ih =>
    intro acc hnd
    rw [List.foldl_cons]
    rw [show declaredKeys kwargs (p :: ps) = paramKeys kwargs p ++ declaredKeys kwargs ps
      from rfl] at hnd
    have hdisj := (List.nodup_append.mp hnd).2.2
    have hfresh : ∀ k ∈ paramKeys kwargs p, ∀ kv ∈ acc, kv.1 ≠ k := by
      intro k hk kv hm heq
      exact hdisj (heq ▸ List.mem_map_of_mem Prod.fst hm) (List.mem_append_left _ hk)
    have hpk : (paramKeys kwargs p).Nodup :=
      (List.nodup_append.mp ((List.nodup_append.mp hnd).2.1)).1
    rw [validate_params_step_fresh kwargs acc p hfresh hpk]
    have hnd2 : ((acc ++ paramEntries kwargs p).map Prod.fst ++ declaredKeys kwargs ps).Nodup := by
      rw [List.map_append, paramEntries_fst, List.append_assoc]
      exact hnd
    rw [ih (acc ++ paramEntries kwargs p) hnd2]
    simp [declaredEntries, List.append_assoc]

/-- A declared parameter's entries all appear in the whole list's entries. -/
theorem mem_declaredEntries_of_mem (kwargs : List (String × PValue)) :
    ∀ (ps : List PluginParam) (p : PluginParam), p ∈ ps →
    ∀ kv ∈ paramEntries kwargs p, kv ∈ declaredEntries kwargs ps := by
  intro ps
  induction ps with
  | nil => intro p hm; simp at hm
  | cons q qs ih =>
    intro p hm kv hkv
    rcases List.mem_cons.mp hm with rfl | hm2
    · exact List.mem_append_left _ hkv
    · exact List.mem_append_right _ (ih p hm2 kv hkv)

/-- Conversely, every entry in the whole list's entries comes from some
declared parameter. -/
theorem mem_declaredEntries (kwargs : List (String × PValue)) :
    ∀ (ps : List PluginParam) (kv : String × PValue),
    kv ∈ declaredEntries kwargs ps → ∃ p, p ∈ ps ∧ kv ∈ paramEntries kwargs p := by
  intro ps
  induction ps with
  | nil => intro kv h; simp [declaredEntries] at h
  | cons q qs ih =>
    intro kv h
    rcases List.mem_append.mp h with h1 | h2
    · exact ⟨q, by simp, h1⟩
    · obtain ⟨p, hp, hkv⟩ := ih kv h2
      exact ⟨p, by simp [hp], hkv⟩

/-! ### Claim theorems: parameter normalization -/

/-- C3 (amended): `validate_params` is pure and total; assuming the
descriptor invariant that the declared parameters contribute pairwise
distinct output keys, every declared parameter present in the given
mapping is passed through verbatim with no clamping, a dual-range
parameter absent from the mapping synthesizes its `_low`/`_high` keys from
the declared defaults, any other absent parameter is filled with its
scalar default, and every output key derives from a declared parameter —
so unknown extra keys of the given mapping are dropped, not passed
through. -/
theorem validate_params_spec (spec_params : List PluginParam)
    (kwargs : List (String × PValue))
    (hk : (declaredKeys kwargs spec_params).Nodup) :
    (∀ p ∈ spec_params, ∀ v, kwargs_get kwargs p.name = some v →
      (p.name, v) ∈ ImagePlugin.validate_params spec_params kwargs) ∧
    (∀ name dl dh mn mx st, PluginParam.rangeP name dl dh mn mx st ∈ spec_params →
      kwargs_get kwargs name = none →
      (name ++ "_low", PValue.fval dl) ∈ ImagePlugin.validate_params spec_params kwargs ∧
      (name ++ "_high", PValue.fval dh) ∈ ImagePlugin.validate_params spec_params kwargs) ∧
    (∀ p ∈ spec_params, p.isRange = false → kwargs_get kwargs p.name = none →
      (p.name, p.scalarDefault) ∈ ImagePlugin.validate_params spec_params kwargs) ∧
    (∀ kv ∈ ImagePlugin.validate_params spec_params kwargs,
      ∃ p, p ∈ spec_params ∧
        (kv.1 = p.name ∨ kv.1 = p.name ++ "_low" ∨ kv.1 = p.name ++ "_high")) := by
  have hout : ImagePlugin.validate_params spec_params kwargs =
      declaredEntries kwargs spec_params := by
    unfold ImagePlugin.validate_params
    have := validate_params_eq_entries kwargs spec_params [] (by simpa using hk)
    simpa using this
  refine ⟨?_, ?_, ?_, ?_⟩
  · intro p hp v hv
    rw [hout]
    exact mem_declaredEntries_of_mem kwargs spec_params p hp _
      (by simp [paramEntries, hv])
  · intro name dl dh mn mx st hp hnone
    rw [hout]
    constructor
    · exact mem_declaredEntries_of_mem kwargs spec_params _ hp _
        (by simp [paramEntries, PluginParam.name, hnone])
    · exact mem_declaredEntries_of_mem kwargs spec_params _ hp _
        (by simp [paramEntries, PluginParam.name, hnone])
  · intro p hp hnr hnone
    rw [hout]
    refine mem_declaredEntries_of_mem kwargs spec_params p hp _ ?_
    cases p <;> simp_all [paramEntries, PluginParam.name, PluginParam.scalarDefault,
      PluginParam.isRange]
  · intro kv hkv
    rw [hout] at hkv
    obtain ⟨p, hp, hin⟩ := mem_declaredEntries kwargs spec_params kv hkv
    have hkey : kv.1 ∈ paramKeys kwargs p := by
      rw [← paramEntries_fst]
      exact List.mem_map_of_mem Prod.fst hin
    exact ⟨p, hp, paramKeys_shape kwargs p kv.1 hkey⟩

/-- C3 witness: a descriptor with a float, a range and an int parameter;
the float is given by the caller and passed through, the range and int are
absent and filled from defaults. -/
theorem validate_params_spec_witness :
    ("gain", PValue.fval 2) ∈
      ImagePlugin.validate_params
        [PluginParam.floatP "gain" 1 0 4 1, PluginParam.rangeP "thr" 0 1 0 1 1,
         PluginParam.intP "k" 3 0 9 1]
        [("gain", PValue.fval 2), ("extra", PValue.bval true)] ∧
    ("thr_low", PValue.fval 0) ∈
      ImagePlugin.validate_params
        [PluginParam.floatP "gain" 1 0 4 1, PluginParam.rangeP "thr" 0 1 0 1 1,
         PluginParam.intP "k" 3 0 9 1]
        [("gain", PValue.fval 2), ("extra", PValue.bval true)] ∧
    ("thr_high", PValue.fval 1) ∈
      ImagePlugin.validate_params
        [PluginParam.floatP "gain" 1 0 4 1, PluginParam.rangeP "thr" 0 1 0 1 1,
         PluginParam.intP "k" 3 0 9 1]
        [("gain", PValue.fval 2), ("extra", PValue.bval true)] ∧
    ("k", PValue.ival 3) ∈
      ImagePlugin.validate_params
        [PluginParam.floatP "gain" 1 0 4 1, PluginParam.rangeP "thr" 0 1 0 1 1,
         PluginParam.intP "k" 3 0 9 1]
        [("gain", PValue.fval 2), ("extra", PValue.bval true)] := by
  have h := validate_params_spec
    [PluginParam.floatP "gain" 1 0 4 1, PluginParam.rangeP "thr" 0 1 0 1 1,
     PluginParam.intP "k" 3 0 9 1]
    [("gain", PValue.fval 2), ("extra", PValue.bval true)] (by decide)
  refine ⟨?_, ?_, ?_, ?_⟩
  · exact h.1 (PluginParam.floatP "gain" 1 0 4 1) (by decide) (PValue.fval 2) (by decide)
  · exact (h.2.1 "thr" 0 1 0 1 1 (by decide) (by decide)).1
  · exact (h.2.1 "thr" 0 1 0 1 1 (by decide) (by decide)).2
  · exact h.2.2.1 (PluginParam.intP "k" 3 0 9 1) (by decide) (by decide) (by decide)

/-- C3 counterexample: an unknown extra key in the given mapping is
dropped, not passed through: `validate_params` over a one-float descriptor
with the unknown key `b` yields only the declared parameter's entry. -/
theorem validate_params_drops_unknown_keys :
    ImagePlugin.validate_params [PluginParam.floatP "a" 0 0 1 1]
        [("b", PValue.bval true)] =
      [("a", PValue.fval 0)] ∧
    "b" ∉ (ImagePlugin.validate_params [PluginParam.floatP "a" 0 0 1 1]
        [("b", PValue.bval true)]).map Prod.fst := by
  decide

/-! ### Helper lemmas about the batch run loop -/

/-- Number of inputs whose load succeeds. -/
def numOk {α : Type} (items : List (BatchItem α)) : Nat :=
  (items.filter (fun it => it.loadOk)).length

/-- Number of inputs whose load raises. -/
def numFailed {α : Type} (items : List (BatchItem α)) : Nat :=
  (items.filter (fun it => !it.loadOk)).length

/-- The errors accumulated over a list of inputs, in order. -/
def batchErrors {α : Type} (reg : PluginRegistry α) (pipeline : Pipeline) :
    List (BatchItem α) → List String
  | [] => []
  | it :: rest => itemErrors reg pipeline it ++ batchErrors reg pipeline rest

/-- The per-input progress snapshots published by an uncancelled loop
starting at index `i`. -/
def loopSnaps (status : BatchStatus) : Nat → Nat → List (BatchStatus × Nat)
  | _, 0 => []
  | i, m + 1 => (status, i + 1) :: loopSnaps status (i + 1) m

/-- Closed form of the uncancelled run loop: counters, error list and
snapshot trace accumulate input by input; the status field is untouched. -/
theorem runBatchLoop_none {α : Type} (reg : PluginRegistry α) (pipeline : Pipeline) :
    ∀ (items : List (BatchItem α)) (i : Nat) (st : BatchJobState), st.current = i →
    runBatchLoop reg pipeline none i items st =
      { status := st.status,
        current := i + items.length,
        total := st.total,
        processed := st.processed + numOk items,
        failed := st.failed + numFailed items,
        errors := st.errors ++ batchErrors reg pipeline items,
        snapshots := st.snapshots ++ loopSnaps st.status i items.length } := by
  intro items
  induction items with
  | nil =>
    intro i st hcur
    obtain ⟨sst, scur, stot, spro, sfail, serr, ssnap⟩ := st
    simp only at hcur
    subst hcur
    simp [runBatchLoop, numOk, numFailed, batchErrors, loopSnaps]
  | cons item rest ih =>
    intro i st hcur
    obtain ⟨sst, scur, stot, spro, sfail, serr, ssnap⟩ := st
    simp only at hcur
    subst hcur
    simp only [runBatchLoop, cancelObserved, Bool.false_eq_true, if_false]
    cases hload : item.load with
    | error e =>
      have hok : item.loadOk = false := by simp [BatchItem.loadOk, hload]
      dsimp only
      rw [ih (scur + 1) _ (by rfl)]
      simp [BatchJobState.mk.injEq, numOk, numFailed, batchErrors, itemErrors, hload,
        List.filter_cons, hok, List.length_cons, loopSnaps, List.append_assoc]
      all_goals omega
    | ok img =>
      have hok : item.loadOk = true := by simp [BatchItem.loadOk, hload]
      dsimp only
      rw [ih (scur + 1) _ (by rfl)]
      simp [BatchJobState.mk.injEq, numOk, numFailed, batchErrors, itemErrors, hload,
        List.filter_cons, hok, List.length_cons, loopSnaps, List.append_assoc]
      all_goals omega

/-- Each input either loads or raises: the two counters partition the
batch. -/
theorem numOk_add_numFailed {α : Type} (items : List (BatchItem α)) :
    numOk items + numFailed items = items.length := by
  induction items with
  | nil => simp [numOk, numFailed]
  | cons it rest ih =>
    cases hok : it.loadOk <;>
      simp_all [numOk, numFailed, List.filter_cons, hok] <;> omega

/-- The accumulated error list decomposes as one entry per load failure
plus the pipeline errors of the successfully loaded inputs. -/
theorem batchErrors_length {α : Type} (reg : PluginRegistry α) (pipeline : Pipeline) :
    ∀ (items : List (BatchItem α)),
    (batchErrors reg pipeline items).length =
      numFailed items +
        (batchErrors reg pipeline (items.filter (fun it => it.loadOk))).length := by
  intro items
  induction items with
  | nil => simp [batchErrors, numFailed]
  | cons it rest ih =>
    cases hload : it.load with
    | error e =>
      have hok : it.loadOk = false := by simp [BatchItem.loadOk, hload]
      simp [batchErrors, itemErrors, hload, numFailed, List.filter_cons, hok] at ih ⊢
      omega
    | ok img =>
      have hok : it.loadOk = true := by simp [BatchItem.loadOk, hload]
      simp [batchErrors, itemErrors, hload, numFailed, List.filter_cons, hok] at ih ⊢
      omega

/-- Closed form of an uncancelled batch run. -/
theorem run_batch_job_none {α : Type} (reg : PluginRegistry α) (pipeline : Pipeline)
    (items : List (BatchItem α)) :
    run_batch_job reg pipeline none items =
      { status := finalStatus (numOk items) (numFailed items),
        current := items.length,
        total := items.length,
        processed := numOk items,
        failed := numFailed items,
        errors := batchErrors reg pipeline items,
        snapshots :=
          (BatchStatus.processing, 0) ::
            (loopSnaps BatchStatus.processing 0 items.length ++
              [(finalStatus (numOk items) (numFailed items), items.length)]) } := by
  dsimp only [run_batch_job]
  rw [runBatchLoop_none reg pipeline items 0 _ rfl]
  simp

/-! ### Claim theorems: batch orchestration -/

/-- Two batch inputs that both load successfully. -/
def cancelItems : List (BatchItem Nat) :=
  [{ filename := "a.png", load := Except.ok 0 },
   { filename := "b.png", load := Except.ok 0 }]

/-- One input whose load raises, then one that loads successfully. -/
def mixedItems : List (BatchItem Nat) :=
  [{ filename := "a.png", load := Except.error "disk" },
   { filename := "b.png", load := Except.ok 0 }]

/-- C1 (the claim is right, the code is wrong): with the cancellation flag
set after input 0 of two inputs, the loop does stop before input 1 and
`processed + failed == 1` as the claim states, but the finalize line of
`run_batch_job` (batch.py line 219) unconditionally recomputes the status,
overwriting the `cancelled` set at the break with `completed`, and line
221 then broadcasts one more snapshot after cancellation was observed —
contradicting both the claim and the code's own `cancelled` status
handling. -/
theorem batch_cancelled_status_overwritten :
    (run_batch_job regFix { steps := [] } (some 0) cancelItems).processed +
        (run_batch_job regFix { steps := [] } (some 0) cancelItems).failed = 1 ∧
    (run_batch_job regFix { steps := [] } (some 0) cancelItems).status =
      BatchStatus.completed ∧
    ¬((run_batch_job regFix { steps := [] } (some 0) cancelItems).status =
        BatchStatus.cancelled) ∧
    (run_batch_job regFix { steps := [] } (some 0) cancelItems).snapshots =
      [(BatchStatus.processing, 0), (BatchStatus.processing, 1),
       (BatchStatus.completed, 1)] := by
  decide

/-- C5 (amended): for an uncancelled batch over at least one input, the
final status is `failed` exactly when every input failed (`processed = 0`
and `failed = N`), `completed` otherwise; with `1 ≤ k < N` input failures
the status is `completed` with `processed = N - k` and `failed = k`, and
the error list holds the `k` input errors plus the pipeline step errors
recorded for the successfully processed inputs. -/
theorem batch_final_status {α : Type} (reg : PluginRegistry α) (pipeline : Pipeline)
    (items : List (BatchItem α)) (hN : 1 ≤ items.length) :
    ((run_batch_job reg pipeline none items).status = BatchStatus.failed ↔
      ((run_batch_job reg pipeline none items).processed = 0 ∧
       (run_batch_job reg pipeline none items).failed = items.length)) ∧
    (1 ≤ numFailed items → numFailed items < items.length →
      (run_batch_job reg pipeline none items).status = BatchStatus.completed ∧
      (run_batch_job reg pipeline none items).processed =
        items.length - numFailed items ∧
      (run_batch_job reg pipeline none items).failed = numFailed items ∧
      (run_batch_job reg pipeline none items).errors.length =
        numFailed items +
          (batchErrors reg pipeline (items.filter (fun it => it.loadOk))).length) := by
  have hsum := numOk_add_numFailed items
  rw [run_batch_job_none]
  dsimp only
  constructor
  · unfold finalStatus
    by_cases h0 : numFailed items = 0
    · simp [h0]
      omega
    · by_cases h1 : numOk items = 0
      · simp [h0, h1]
        omega
      · simp [h0, h1]
  · intro hk1 hk2
    have hcompleted :
        finalStatus (numOk items) (numFailed items) = BatchStatus.completed := by
      unfold finalStatus
      have h2 : numFailed items ≠ 0 := by omega
      have h3 : numOk items ≠ 0 := by omega
      simp [h2, h3]
    refine ⟨hcompleted, by omega, rfl, ?_⟩
    exact batchErrors_length reg pipeline items

/-- C5 witness: two inputs, the first failing to load, under the empty
pipeline. -/
theorem batch_final_status_witness :
    (run_batch_job regFix { steps := [] } none mixedItems).status =
      BatchStatus.completed ∧
    (run_batch_job regFix { steps := [] } none mixedItems).processed =
      mixedItems.length - numFailed mixedItems ∧
    (run_batch_job regFix { steps := [] } none mixedItems).failed =
      numFailed mixedItems ∧
    (run_batch_job regFix { steps := [] } none mixedItems).errors.length =
      numFailed mixedItems +
        (batchErrors regFix { steps := [] }
          (mixedItems.filter (fun it => it.loadOk))).length :=
  (batch_final_status regFix { steps := [] } mixedItems (by decide)).2
    (by decide) (by decide)

/-- C5 counterexample: one load failure plus one successful input whose
pipeline records a step error gives `len(errors) = 2 ≠ k = 1` while the
claim as stated demands `len(errors) == k`. -/
theorem batch_errors_exceed_input_failures :
    (run_batch_job regFix boomOnlyPipeline none mixedItems).status =
      BatchStatus.completed ∧
    (run_batch_job regFix boomOnlyPipeline none mixedItems).failed = 1 ∧
    (run_batch_job regFix boomOnlyPipeline none mixedItems).errors.length = 2 ∧
    ¬((run_batch_job regFix boomOnlyPipeline none mixedItems).errors.length =
        (run_batch_job regFix boomOnlyPipeline none mixedItems).failed) := by
  decide

/-- C10: when every input loads, pipeline step errors are not counted as
input failures: the job completes with `failed = 0`, every input counted
in `processed`, and the error list is exactly the concatenation of the
per-input pipeline error lists — which can be nonempty. -/
theorem batch_step_errors_not_input_failures {α : Type} (reg : PluginRegistry α)
    (pipeline : Pipeline) (items : List (BatchItem α))
    (h : ∀ it ∈ items, it.loadOk = true) :
    (run_batch_job reg pipeline none items).status = BatchStatus.completed ∧
    (run_batch_job reg pipeline none items).failed = 0 ∧
    (run_batch_job reg pipeline none items).processed = items.length ∧
    (run_batch_job reg pipeline none items).errors = batchErrors reg pipeline items := by
  have hnf : numFailed items = 0 := by
    unfold numFailed
    rw [List.length_eq_zero, List.filter_eq_nil_iff]
    intro it hm
    simp [h it hm]
  have hok : numOk items = items.length := by
    unfold numOk
    rw [List.filter_eq_self.mpr (fun it hm => h it hm)]
  rw [run_batch_job_none]
  dsimp only
  refine ⟨?_, hnf, hok, rfl⟩
  unfold finalStatus
  simp [hnf]

/-- C10 witness: one successfully loading input run through a pipeline
whose only step raises: the job completes with `failed = 0` and a
nonempty error list. -/
theorem batch_step_errors_not_input_failures_witness :
    ((run_batch_job regFix boomOnlyPipeline none
        [{ filename := "a.png", load := Except.ok 0 }]).status =
          BatchStatus.completed ∧
      (run_batch_job regFix boomOnlyPipeline none
        [{ filename := "a.png", load := Except.ok 0 }]).failed = 0 ∧
      (run_batch_job regFix boomOnlyPipeline none
        [{ filename := "a.png", load := Except.ok 0 }]).processed = 1 ∧
      (run_batch_job regFix boomOnlyPipeline none
          [{ filename := "a.png", load := Except.ok 0 }]).errors =
        batchErrors regFix boomOnlyPipeline
          [{ filename := "a.png", load := Except.ok 0 }]) ∧
    (run_batch_job regFix boomOnlyPipeline none
        [{ filename := "a.png", load := Except.ok 0 }]).errors ≠ [] := by
  constructor
  · have h := batch_step_errors_not_input_failures regFix boomOnlyPipeline
      [{ filename := "a.png", load := Except.ok 0 }] (by decide)
    exact ⟨h.1, h.2.1, by simpa using h.2.2.1, h.2.2.2⟩
  · decide

/-! ### Claim theorems: submission and broadcasting -/

/-- C6: a submission whose pipeline references an unregistered capability
name is rejected synchronously with a validation error: `start_batch_run`
returns the `HTTPException` before reaching job creation, so no job table
entry, no background task and no job id can be produced. -/
theorem invalid_pipeline_rejected_before_job_creation {α : Type}
    (reg : PluginRegistry α) (folderScan : String → Option (List String))
    (image_cache : List String) (request : BatchRunRequest) (fresh_job_id : String)
    (batch_jobs : List (String × StoredBatchJob)) (tasks : List String)
    (h : ∃ s ∈ request.pipeline_steps, reg s.plugin_name = none) :
    (∃ msg, start_batch_run reg folderScan image_cache request fresh_job_id
        batch_jobs tasks = Except.error msg) ∧
    ∀ out, start_batch_run reg folderScan image_cache request fresh_job_id
        batch_jobs tasks ≠ Except.ok out := by
  have hne : Pipeline.validateGo reg 0 request.pipeline_steps ≠ [] :=
    validateGo_ne_nil_of_unresolved reg request.pipeline_steps 0 h
  rcases hv : Pipeline.validate reg { steps := request.pipeline_steps } with ⟨b, errs⟩
  have hb : b = false := by
    have h2 := hv
    unfold Pipeline.validate at h2
    simp only [Prod.mk.injEq] at h2
    rw [← h2.1]
    simpa [List.length_eq_zero] using hne
  subst hb
  constructor
  · refine ⟨"Invalid pipeline: " ++ String.intercalate ", " errs, ?_⟩
    unfold start_batch_run
    dsimp only
    rw [hv]
    simp
  · intro out
    unfold start_batch_run
    dsimp only
    rw [hv]
    simp

/-- C6 witness: a request whose single pipeline step names an unregistered
plugin is rejected with an error. -/
theorem invalid_pipeline_rejected_before_job_creation_witness :
    ∃ msg, start_batch_run regFix (fun _ => none) ["img1"]
        { source_image_ids := ["img1"], pipeline_steps := [{ plugin_name := "nope" }],
          output_folder := "/tmp/out", input_folder := none }
        "job-1" [] [] = Except.error msg :=
  (invalid_pipeline_rejected_before_job_creation regFix (fun _ => none) ["img1"]
    { source_image_ids := ["img1"], pipeline_steps := [{ plugin_name := "nope" }],
      output_folder := "/tmp/out", input_folder := none }
    "job-1" [] [] ⟨{ plugin_name := "nope" }, by decide, rfl⟩).1

/-- The first pass of `broadcast_progress` collects exactly the observers
whose delivery fails, in registration order. -/
theorem broadcast_collect_eq_filter {Obs : Type} (send : Obs → Bool) :
    ∀ (l acc : List Obs),
    l.foldl (fun acc ws => if send ws then acc else acc ++ [ws]) acc =
      acc ++ l.filter (fun ws => !send ws) := by
  intro l
  induction l with
  | nil => intro acc; simp
  | cons a as ih =>
    intro acc
    cases hs : send a <;> simp [List.foldl_cons, hs, ih, List.filter_cons]

/-- The removal pass (`list.remove` guarded by a membership test, one call
per collected observer) computes the list difference. -/
theorem broadcast_remove_eq_diff {Obs : Type} [DecidableEq Obs] :
    ∀ (sub conns : List Obs), sub.Nodup → (∀ ws ∈ sub, ws ∈ conns) →
    sub.foldl (fun cs ws => if ws ∈ cs then cs.erase ws else cs) conns =
      conns.diff sub := by
  intro sub
  induction sub with
  | nil => intro conns _ _; simp
  | cons a as ih =>
    intro conns hnd hmem
    have ha : a ∈ conns := hmem a (by simp)
    have hnd2 := List.nodup_cons.mp hnd
    rw [List.foldl_cons, if_pos ha, List.diff_cons]
    refine ih (conns.erase a) hnd2.2 ?_
    intro ws hws
    have hne : ws ≠ a := fun hEq => hnd2.1 (hEq ▸ hws)
    exact (List.mem_erase_of_ne hne).mpr (hmem ws (by simp [hws]))

/-- C9: `publish` over a duplicate-free observer registry attempts
delivery to every registered observer independently: the observers whose
delivery fails are exactly those removed, the survivors are exactly those
whose own delivery succeeded (unaffected by other observers' failures),
and the call returns normally (it is a total function). -/
theorem broadcast_progress_delivers_and_prunes {Obs : Type} [DecidableEq Obs]
    (send : Obs → Bool) (websocket_connections : List Obs)
    (h : websocket_connections.Nodup) :
    broadcast_progress send websocket_connections =
      (websocket_connections.filter (fun ws => send ws),
       websocket_connections.filter (fun ws => !send ws)) ∧
    ∀ ws ∈ websocket_connections,
      (ws ∈ (broadcast_progress send websocket_connections).1 ↔ send ws = true) := by
  have hcollect := broadcast_collect_eq_filter send websocket_connections []
  have hsubnd : (websocket_connections.filter (fun ws => !send ws)).Nodup :=
    h.filter _
  have hsubmem : ∀ ws ∈ websocket_connections.filter (fun ws => !send ws),
      ws ∈ websocket_connections := fun ws hws => (List.mem_filter.mp hws).1
  have hmain : broadcast_progress send websocket_connections =
      (websocket_connections.filter (fun ws => send ws),
       websocket_connections.filter (fun ws => !send ws)) := by
    unfold broadcast_progress
    rw [hcollect]
    simp only [List.nil_append]
    rw [broadcast_remove_eq_diff _ websocket_connections hsubnd hsubmem]
    rw [h.diff_eq_filter]
    congr 1
    apply List.filter_congr
    intro ws hws
    simp [List.mem_filter, hws]
  refine ⟨hmain, ?_⟩
  intro ws hws
  rw [hmain]
  simp [List.mem_filter, hws]

/-- C9 witness: five observers of which two fail; both failures are
removed, the three successful observers all receive the snapshot and
remain registered. -/
theorem broadcast_progress_delivers_and_prunes_witness :
    broadcast_progress (fun n => n % 2 == 0) [0, 1, 2, 3, 4] = ([0, 2, 4], [1, 3]) :=
  ((broadcast_progress_delivers_and_prunes (fun n : Nat => n % 2 == 0)
    [0, 1, 2, 3, 4] (by decide)).1).trans (by decide)
